import Mathlib

/-!
Verification development for the Gyroid-Gen geometry pipeline.

The pipeline (marching cubes over a binary gyroid/structural solid field,
largest-component extraction, Taubin smoothing, vertex normals, binary STL
export) is shallowly embedded below.  Numbers are modelled as exact rationals
(`ℚ`); the transcendental functions the source obtains from the host math
library (`Math.sin`, `Math.cos`, `Math.sqrt`) are abstracted as function
parameters (`sinA`, `cosA`, `msqrt`), since none of the verified properties
depend on their values.  Typed-array reads/writes are modelled by total maps
and lists; the comments note every such modelling decision.
-/

namespace GyroidGen

/-- JS `Math.round`: rounds half towards positive infinity. -/
def jround (q : ℚ) : ℤ := ⌊q + 1/2⌋

/-- MC corner offsets: corner `i` is at `(dX[i], dY[i], dZ[i])` relative to the
cube origin (source lines 16-18). -/
def dX : List ℕ := [0, 1, 1, 0, 0, 1, 1, 0]

/-- Corner Y offsets (source line 17). -/
def dY : List ℕ := [0, 0, 1, 1, 0, 0, 1, 1]

/-- Corner Z offsets (source line 18). -/
def dZ : List ℕ := [0, 0, 0, 0, 1, 1, 1, 1]

/-- For each MC edge, the first endpoint corner (source line 21). -/
def EDGE_V0 : List ℕ := [0, 1, 2, 3, 4, 5, 6, 7, 0, 1, 2, 3]

/-- For each MC edge, the second endpoint corner (source line 22). -/
def EDGE_V1 : List ℕ := [1, 2, 3, 0, 5, 6, 7, 4, 4, 5, 6, 7]

/-- For each MC edge, which corner provides the cache base point
(source line 34). -/
def EDGE_CACHE_CORNER : List ℕ := [0, 1, 3, 0, 4, 5, 7, 4, 0, 1, 2, 3]

/-- For each MC edge, the axis direction 0=X 1=Y 2=Z (source line 35). -/
def EDGE_DIR : List ℕ := [0, 1, 0, 1, 0, 1, 0, 1, 2, 2, 2, 2]

/-- Modelled from the spec: `EDGE_TABLE` lives in `constants.ts`, which is not
among the provided sources.  Per spec §9 it is the standard Paul Bourke
marching-cubes edge table ("they are data, not algorithm"), and per spec §4.3
its entry for a cube index has the bit of edge `e` set exactly when the two
endpoint corners `EDGE_V0[e]` and `EDGE_V1[e]` lie on opposite sides of the
surface, i.e. when their void bits in the cube index differ.  That rule
determines the table completely, so it is used as the definition here. -/
def EDGE_TABLE (ci : ℕ) : ℕ :=
  (List.range 12).foldl
    (fun m e =>
      if ci.testBit (EDGE_V0.getD e 0) ≠ ci.testBit (EDGE_V1.getD e 0) then
        m ||| (1 <<< e)
      else m)
    0

/-- Input parameter record (`GenParams` in `types.ts`).  Fields that the
source destructures with a default (lines 226-228) are `Option`s here, `none`
standing for an absent/`undefined` field.  (`types.ts` marks `useFrame` and
`frameBeamWidth` as required, but the destructuring defaults in the generator
are part of the code and are modelled.) -/
structure GenParams where
  size : ℚ
  cellSize : ℚ
  wallThickness : ℚ
  shellThickness : ℚ
  useFrame : Option Bool
  frameBeamWidth : Option ℚ
  resolution : ℚ
  smoothingIterations : Option ℚ
  makeManifold : Option Bool

/-- Parameters after the destructuring defaults of source lines 224-229 have
been applied. -/
structure ResolvedParams where
  size : ℚ
  cellSize : ℚ
  wallThickness : ℚ
  shellThickness : ℚ
  useFrame : Bool
  frameBeamWidth : ℚ
  resolution : ℚ
  smoothingIterations : ℚ
  makeManifold : Bool

/-- The destructuring of source lines 224-229:
`useFrame = false`, `frameBeamWidth = 10`, `smoothingIterations = 10`,
`makeManifold = false` are the defaults used when a field is absent. -/
def resolveParams (p : GenParams) : ResolvedParams where
  size := p.size
  cellSize := p.cellSize
  wallThickness := p.wallThickness
  shellThickness := p.shellThickness
  useFrame := p.useFrame.getD false
  frameBeamWidth := p.frameBeamWidth.getD 10
  resolution := p.resolution
  smoothingIterations := p.smoothingIterations.getD 10
  makeManifold := p.makeManifold.getD false

/-- Cell snapping, source line 240: `Math.max(1, Math.round(size / cellSize))`. -/
def snappedCellCount (size cellSize : ℚ) : ℤ := max 1 (jround (size / cellSize))

/-- Cell snapping, source line 241: the effective cell size
`size / snappedCellCount` used by the field builder. -/
def snappedCellSize (size cellSize : ℚ) : ℚ :=
  size / ((snappedCellCount size cellSize : ℤ) : ℚ)

/-- Frame-mode structural test (source lines 300-312): a voxel is structural
when it lies within `frameBeamWidth` of two perpendicular cube faces
simultaneously.  `nearX` is `Math.abs(xMM) >= half - bw` etc. -/
def frameStructural (half bw xMM yMM zMM : ℚ) : Bool :=
  let nearX := decide (half - bw ≤ |xMM|)
  let nearY := decide (half - bw ≤ |yMM|)
  let nearZ := decide (half - bw ≤ |zMM|)
  (nearX && nearY) || (nearX && nearZ) || (nearY && nearZ)

/-- Classification of one grid point into solid (1) / void (0), source lines
286-338.  `sinRad`/`cosRad` are the precomputed per-grid-coordinate trig
tables, `mm` the per-coordinate millimetre positions. -/
def classifyPoint (wallThickness shellThickness frameBeamWidth : ℚ)
    (useFrame makeManifold : Bool) (half step faceDepth : ℚ)
    (sinRad cosRad mm : ℕ → ℚ) (xi yi zi : ℕ) : ℕ :=
  let xMM := mm xi
  let yMM := mm yi
  let zMM := mm zi
  let G := sinRad xi * cosRad yi + sinRad yi * cosRad zi + sinRad zi * cosRad xi
  let channelA := decide (wallThickness < G)
  let channelB := decide (G < -wallThickness)
  let gyroidWall := !channelA && !channelB
  let structural :=
    if useFrame then
      frameStructural half frameBeamWidth xMM yMM zMM
    else
      let inInner := decide (|xMM| ≤ half - shellThickness)
                  && decide (|yMM| ≤ half - shellThickness)
                  && decide (|zMM| ≤ half - shellThickness)
      let structural0 := !inInner
      if structural0 && !makeManifold then
        let zFace := decide (zMM < -half + faceDepth) || decide (half - faceDepth < zMM)
        let xFace := decide (xMM < -half + faceDepth) || decide (half - faceDepth < xMM)
        let edgeMargin := shellThickness + step
        let nearYEdge := decide (yMM < -half + edgeMargin) || decide (half - edgeMargin < yMM)
        let openA := zFace && !xFace && !nearYEdge && channelA
        let openB := xFace && !zFace && !nearYEdge && channelB
        if openA || openB then false else structural0
      else structural0
  if structural || gyroidWall then 1 else 0

/-- The binary solid field before boundary voiding (source lines 253-346).
The source fills a `Uint8Array` in chunks purely for cooperative yielding;
each entry depends only on its own index, so the field is modelled as the
per-index map.  The index decomposition mirrors source lines 281-284:
`zi = (idx / np2) | 0`, `rem = idx - zi * np2`, `yi = (rem / np) | 0`,
`xi = rem - yi * np`. -/
def buildField (wallThickness shellThickness frameBeamWidth : ℚ)
    (useFrame makeManifold : Bool) (half step faceDepth : ℚ)
    (sinRad cosRad mm : ℕ → ℚ) (np np2 : ℕ) : ℕ → ℕ :=
  fun idx =>
    let zi := idx / np2
    let rem := idx % np2
    let yi := rem / np
    let xi := rem % np
    classifyPoint wallThickness shellThickness frameBeamWidth useFrame makeManifold
      half step faceDepth sinRad cosRad mm xi yi zi

/-- Pointwise update of a map modelling a typed-array store. -/
def setF (f : ℕ → ℕ) (i v : ℕ) : ℕ → ℕ := fun j => if j = i then v else f j

/-- Boundary voiding (source lines 358-370): every grid point with any
coordinate equal to 0 or `res` is forced to void. -/
def voidBoundary (field : ℕ → ℕ) (res np np2 : ℕ) : ℕ → ℕ :=
  (List.range np).foldl
    (fun fld a =>
      (List.range np).foldl
        (fun fld2 b =>
          setF (setF (setF (setF (setF (setF fld2
            (0 + a * np + b * np2) 0)
            (res + a * np + b * np2) 0)
            (a + 0 + b * np2) 0)
            (a + res * np + b * np2) 0)
            (a + b * np) 0)
            (a + b * np + res * np2) 0)
        fld)
    field

/-- Marching-cubes sweep state: the three per-axis edge caches
(`cache d g`, `d ∈ {0,1,2}`, initialised to -1 like the `Int32Array`s of
source lines 381-383), the flat vertex position buffer and the flat triangle
index buffer. -/
structure MCState where
  cache : ℕ → ℕ → ℤ
  positions : List ℚ
  faces : List ℕ

/-- Write to one per-axis edge cache: `cache[dir][idx] = v`, all other
entries unchanged. -/
def setC (c : ℕ → ℕ → ℤ) (dir idx : ℕ) (v : ℤ) : ℕ → ℕ → ℤ :=
  fun d g => if d = dir ∧ g = idx then v else c d g

/-- Write to the per-cube edge-vertex array: `ev[e] = v`. -/
def setE (ev : ℕ → ℤ) (e : ℕ) (v : ℤ) : ℕ → ℤ :=
  fun j => if j = e then v else ev j

/-- Grid-index offset of corner `c` relative to the cube origin
(source line 378). -/
def cornerOff (np np2 c : ℕ) : ℕ := dX.getD c 0 + dY.getD c 0 * np + dZ.getD c 0 * np2

/-- Grid-index step along each axis (source line 385). -/
def axisDelta (np np2 d : ℕ) : ℕ := if d = 0 then 1 else if d = 1 then np else np2

/-- Get-or-create the deduplicated vertex on an edge of the current cube
(source lines 394-440).  Returns the updated state and the vertex index.
The three world coordinates are written with one `if` per component; the
source branches once on `dir` and writes all three, which is the same
function.  The interpolation parameter defaults to 0.5 and is replaced by the
clamped `-fA / diff` when `|diff| > 1e-6`. -/
def getEdgeVertex (sf : ℕ → ℕ) (np np2 : ℕ) (half step : ℚ) (edge c0 : ℕ)
    (s : MCState) : MCState × ℕ :=
  let dir := EDGE_DIR.getD edge 0
  let baseIdx := c0 + cornerOff np np2 (EDGE_CACHE_CORNER.getD edge 0)
  if 0 ≤ s.cache dir baseIdx then (s, (s.cache dir baseIdx).toNat)
  else
    let fA : ℚ := if sf baseIdx = 1 then -1 else 1
    let fB : ℚ := if sf (baseIdx + axisDelta np np2 dir) = 1 then -1 else 1
    let diff := fB - fA
    let mu : ℚ :=
      if 1/1000000 < |diff| then
        let m := -fA / diff
        if m < 0 then 0 else if 1 < m then 1 else m
      else 1/2
    let gz := baseIdx / np2
    let gy := (baseIdx - gz * np2) / np
    let gx := baseIdx - gz * np2 - gy * np
    let wx : ℚ := if dir = 0 then -half + ((gx : ℚ) + mu) * step else -half + (gx : ℚ) * step
    let wy : ℚ := if dir = 1 then -half + ((gy : ℚ) + mu) * step else -half + (gy : ℚ) * step
    let wz : ℚ := if dir = 2 then -half + ((gz : ℚ) + mu) * step else -half + (gz : ℚ) * step
    let vertIdx := s.positions.length / 3
    (⟨setC s.cache dir baseIdx (vertIdx : ℤ),
      s.positions ++ [wx, wy, wz], s.faces⟩,
     vertIdx)

/-- One iteration of the edge-resolution loop (source lines 467-469): when
the edge bit is set, resolve its vertex and record it in `ev`. -/
def edgeStep (sf : ℕ → ℕ) (np np2 : ℕ) (half step : ℚ) (edges c0 : ℕ)
    (acc : MCState × (ℕ → ℤ)) (e : ℕ) : MCState × (ℕ → ℤ) :=
  if edges &&& (1 <<< e) ≠ 0 then
    let r := getEdgeVertex sf np np2 half step e c0 acc.1
    (r.1, setE acc.2 e (r.2 : ℤ))
  else acc

/-- Resolve the vertices of every edge whose bit is set (source lines
466-469).  `ev` starts as the all-(-1) `Int32Array(12)`. -/
def resolveEdges (sf : ℕ → ℕ) (np np2 : ℕ) (half step : ℚ) (edges c0 : ℕ)
    (s : MCState) : MCState × (ℕ → ℤ) :=
  (List.range 12).foldl (edgeStep sf np np2 half step edges c0)
    (s, fun _ => (-1 : ℤ))

/-- JS read `ev[e]` on the `Int32Array(12)`: an out-of-range index yields
`undefined`, which fails the `< 0` test and is coerced to 0 by the final
`Uint32Array(faceIndices)`; that composite behaviour is modelled by returning
0 (the branch is unreachable for the standard triangle tables, whose entries
lie in [-1, 11]). -/
def evAt (ev : ℕ → ℤ) (e : ℤ) : ℤ := if 0 ≤ e ∧ e < 12 then ev e.toNat else 0

/-- Triangle emission for one cube (source lines 472-480): walk
`TRI_TABLE[tBase + t]` for `t = 0, 3, ..., 15`, stop at the -1 sentinel, skip
any triple with an unresolved vertex, and push the three vertex indices. -/
def emitTris (tt : ℕ → ℤ) (ev : ℕ → ℤ) (tBase : ℕ) : List ℕ → List ℕ
  | [] => []
  | t :: rest =>
    let e1 := tt (tBase + t)
    if e1 = -1 then []
    else
      let v1 := evAt ev e1
      let v2 := evAt ev (tt (tBase + t + 1))
      let v3 := evAt ev (tt (tBase + t + 2))
      if v1 < 0 ∨ v2 < 0 ∨ v3 < 0 then emitTris tt ev tBase rest
      else v1.toNat :: v2.toNat :: v3.toNat :: emitTris tt ev tBase rest

/-- The `t` values visited by the triangle-emission loop
(`for t = 0; t < 16; t += 3`). -/
def triSteps : List ℕ := [0, 3, 6, 9, 12, 15]

/-- The cube index of the cell at grid origin `c0` (source lines 453-459):
bit `c` is set when corner `c` is void. -/
def cubeIndexOf (sf : ℕ → ℕ) (np np2 c0 : ℕ) : ℕ :=
  (List.range 8).foldl
    (fun ci c => if sf (c0 + cornerOff np np2 c) = 0 then ci ||| (1 <<< c) else ci) 0

/-- Process one marching-cubes cell at grid origin `c0` (source lines
450-481): build the cube index, skip when `EDGE_TABLE` is 0, resolve the
active edge vertices, emit triangles.  `tBase = cubeIndex << 4`. -/
def processCube (sf : ℕ → ℕ) (tt : ℕ → ℤ) (np np2 : ℕ) (half step : ℚ)
    (c0 : ℕ) (s : MCState) : MCState :=
  let cubeIndex := cubeIndexOf sf np np2 c0
  let edges := EDGE_TABLE cubeIndex
  if edges = 0 then s
  else
    let r := resolveEdges sf np np2 half step edges c0 s
    let tris := emitTris tt r.2 (cubeIndex <<< 4) triSteps
    ⟨r.1.cache, r.1.positions, r.1.faces ++ tris⟩

/-- Cube visiting order of the sweep (source lines 443-450): `z` outer, `y`
middle, `x` inner. -/
def cubeCoords (res : ℕ) : List (ℕ × ℕ × ℕ) :=
  (List.range res).flatMap fun z =>
    (List.range res).flatMap fun y =>
      (List.range res).map fun x => (z, y, x)

/-- The marching-cubes sweep over every cube in the grid: fold
`processCube` over the sweep order, starting from empty buffers and
all-(-1) caches. -/
def marchCubes (sf : ℕ → ℕ) (tt : ℕ → ℤ) (res np np2 : ℕ) (half step : ℚ) : MCState :=
  (cubeCoords res).foldl
    (fun s zyx => processCube sf tt np np2 half step
      (zyx.2.2 + zyx.2.1 * np + zyx.1 * np2) s)
    ⟨fun _ _ => -1, [], []⟩

/-- Pointwise update of a boolean map modelling the `visited` `Uint8Array`. -/
def setB (f : ℕ → Bool) (i : ℕ) : ℕ → Bool := fun j => if j = i then true else f j

/-- Pointwise update of an integer map modelling the `vertMap` `Int32Array`. -/
def setI (f : ℕ → ℤ) (i : ℕ) (v : ℤ) : ℕ → ℤ := fun j => if j = i then v else f j

/-- The vertex-to-faces adjacency of source lines 158-164: for a vertex `v`,
the face indices `f` are listed in ascending order, `f` repeated once per
slot of face `f` that holds `v` (the source pushes `f` once per matching
corner). -/
def vertFaces (indices : List ℕ) (numFaces v : ℕ) : List ℕ :=
  (List.range numFaces).flatMap fun f =>
    (if indices.getD (f * 3) 0 = v then [f] else [])
    ++ (if indices.getD (f * 3 + 1) 0 = v then [f] else [])
    ++ (if indices.getD (f * 3 + 2) 0 = v then [f] else [])

/-- One seed's depth-first flood fill over the face graph (source lines
175-185).  The JS array used as a stack pushes and pops at its end; the model
keeps the top of the stack at the head, so the freshly pushed neighbours are
prepended in reverse order.  Each loop iteration pops one face, appends it to
the component, and pushes every not-yet-visited face sharing a vertex,
marking it visited at push time.  Since a face is pushed at most once
(it is marked visited when pushed), the loop runs at most `numFaces + 1`
times; the structural `fuel` argument is given exactly that budget by the
caller, so the fuel-exhaustion branch is never taken. -/
def dfsLoop (vf : ℕ → List ℕ) (indices : List ℕ) :
    ℕ → List ℕ → (ℕ → Bool) → List ℕ → List ℕ × (ℕ → Bool)
  | 0, _, visited, comp => (comp, visited)
  | _ + 1, [], visited, comp => (comp, visited)
  | fuel + 1, f :: stack, visited, comp =>
    let candidates := vf (indices.getD (f * 3) 0)
                   ++ vf (indices.getD (f * 3 + 1) 0)
                   ++ vf (indices.getD (f * 3 + 2) 0)
    let vp := candidates.foldl
      (fun (vp : (ℕ → Bool) × List ℕ) nf =>
        if vp.1 nf then vp else (setB vp.1 nf, vp.2 ++ [nf]))
      (visited, [])
    dfsLoop vf indices fuel (vp.2.reverse ++ stack) vp.1 (comp ++ [f])

/-- The seed loop of source lines 169-187: flood-fill from every unvisited
face, keeping the component with strictly the most faces (ties keep the
earlier one). -/
def bestComponent (vf : ℕ → List ℕ) (indices : List ℕ) (numFaces : ℕ) : List ℕ :=
  ((List.range numFaces).foldl
    (fun (acc : (ℕ → Bool) × List ℕ) seed =>
      if acc.1 seed then acc
      else
        let r := dfsLoop vf indices (numFaces + 1) [seed] (setB acc.1 seed) []
        (r.2, if acc.2.length < r.1.length then r.1 else acc.2))
    (fun _ => false, [])).2

/-- One vertex slot of the compaction loop (source lines 198-202): assign the
next compact index to a first-seen vertex, then push its compact index. -/
def remapVertexStep (indices : List ℕ) (f : ℕ)
    (acc2 : (ℕ → ℤ) × ℕ × List ℕ) (k : ℕ) : (ℕ → ℤ) × ℕ × List ℕ :=
  let v := indices.getD (f * 3 + k) 0
  if acc2.1 v = -1 then
    (setI acc2.1 v (acc2.2.1 : ℤ), acc2.2.1 + 1, acc2.2.2 ++ [acc2.2.1])
  else (acc2.1, acc2.2.1, acc2.2.2 ++ [(acc2.1 v).toNat])

/-- One face of the compaction loop (source lines 197-203): process the
face's three corners in order. -/
def remapFaceStep (indices : List ℕ) (acc : (ℕ → ℤ) × ℕ × List ℕ)
    (f : ℕ) : (ℕ → ℤ) × ℕ × List ℕ :=
  ([0, 1, 2] : List ℕ).foldl (remapVertexStep indices f) acc

/-- Largest-connected-component extraction (source lines 149-215).  Skipped
when there are fewer than 100 faces, or when the largest component is the
whole mesh.  Otherwise vertices are compacted through `vertMap` (an
`Int32Array(numVerts)` filled with -1, modelled as a total map so that the
reads performed for the always-in-range vertex indices agree with the
source), and the compacted position buffer of length `newVertCount * 3`
(zero-initialised, like a fresh `Float32Array`) is filled by the copy-back
loop of source lines 206-212. -/
def extractLargestComponent (positions : List ℚ) (indices : List ℕ) :
    List ℚ × List ℕ :=
  let numVerts := positions.length / 3
  let numFaces := indices.length / 3
  if numFaces < 100 then (positions, indices)
  else
    let vf := vertFaces indices numFaces
    let best := bestComponent vf indices numFaces
    if best.length = numFaces then (positions, indices)
    else
      let r := best.foldl (remapFaceStep indices) ((fun _ => (-1 : ℤ)), 0, [])
      let vertMap := r.1
      let newVertCount := r.2.1
      let newIdx := r.2.2
      let posFn := (List.range numVerts).foldl
        (fun (pf : ℕ → ℚ) v =>
          if 0 ≤ vertMap v then
            let t := (vertMap v).toNat
            fun j =>
              if j = t * 3 then positions.getD (v * 3) 0
              else if j = t * 3 + 1 then positions.getD (v * 3 + 1) 0
              else if j = t * 3 + 2 then positions.getD (v * 3 + 2) 0
              else pf j
          else pf)
        (fun _ => (0 : ℚ))
      ((List.range (newVertCount * 3)).map posFn, newIdx)

/-- First-occurrence deduplication, the behaviour of `[...new Set(list)]`
(source line 66). -/
def jsDedup (l : List ℕ) : List ℕ :=
  l.foldl (fun acc n => if n ∈ acc then acc else acc ++ [n]) []

/-- The indices grouped into face triples (the source reads
`indices[f*3 + k]` for `f < indices.length / 3`). -/
def faceTriples (indices : List ℕ) : List (ℕ × ℕ × ℕ) :=
  (List.range (indices.length / 3)).map fun f =>
    (indices.getD (f * 3) 0, indices.getD (f * 3 + 1) 0, indices.getD (f * 3 + 2) 0)

/-- What one face pushes onto vertex `v`'s raw adjacency list (source lines
56-61): for face `(a, b, c)` the source pushes `b, c` onto `a`'s list, `a, c`
onto `b`'s and `a, b` onto `c`'s, in that order (so a degenerate face with a
repeated vertex pushes twice onto that vertex's list, as in the source). -/
def adjContrib (v : ℕ) (t : ℕ × ℕ × ℕ) : List ℕ :=
  (if v = t.1 then [t.2.1, t.2.2] else [])
  ++ (if v = t.2.1 then [t.1, t.2.2] else [])
  ++ (if v = t.2.2 then [t.1, t.2.1] else [])

/-- The deduplicated one-ring neighbour list of vertex `v` (source lines
50-71; the CSR packing is a memory layout and is modelled as the per-vertex
list it encodes). -/
def neighbors (indices : List ℕ) (v : ℕ) : List ℕ :=
  jsDedup ((faceTriples indices).flatMap (adjContrib v))

/-- The three coordinates of vertex `v` after one Taubin half-step with
coefficient `factor` (source lines 82-98): a vertex with no neighbours keeps
its `temp` value (`continue`), every other vertex moves towards (or away
from) the mean of its neighbours read from `temp`, with `inv = 1 / count`. -/
def smoothVertex (nbr : ℕ → List ℕ) (factor : ℚ) (temp : List ℚ) (v : ℕ) :
    List ℚ :=
  let ns := nbr v
  if ns.length = 0 then
    [temp.getD (v * 3) 0, temp.getD (v * 3 + 1) 0, temp.getD (v * 3 + 2) 0]
  else
    let sx := (ns.map fun n => temp.getD (n * 3) 0).sum
    let sy := (ns.map fun n => temp.getD (n * 3 + 1) 0).sum
    let sz := (ns.map fun n => temp.getD (n * 3 + 2) 0).sum
    let inv := (1 : ℚ) / (ns.length : ℚ)
    [temp.getD (v * 3) 0 + factor * (sx * inv - temp.getD (v * 3) 0),
     temp.getD (v * 3 + 1) 0 + factor * (sy * inv - temp.getD (v * 3 + 1) 0),
     temp.getD (v * 3 + 2) 0 + factor * (sz * inv - temp.getD (v * 3 + 2) 0)]

/-- One Taubin half-step over the whole buffer (source lines 78-99).  The
source array keeps `positions.length` entries and writes only the first
`numVerts * 3`; any leftover entries are carried over unchanged by the
trailing `drop`. -/
def smoothPass (nbr : ℕ → List ℕ) (numVerts : ℕ) (factor : ℚ) (temp : List ℚ) :
    List ℚ :=
  (List.range numVerts).flatMap (smoothVertex nbr factor temp)
  ++ temp.drop (numVerts * 3)

/-- Taubin smoothing on the indexed mesh (source lines 40-102).  Early return
when `iterations <= 0` or the position buffer is empty.  The loop runs
`iter = 0, 1, ...` while `iter < iterations * 2`, i.e. `⌈2 * iterations⌉`
half-steps for a positive bound, with `lambda = 0.5` on even and `mu = -0.53`
on odd iterations. -/
def taubinSmooth (positions : List ℚ) (indices : List ℕ) (iterations : ℚ) :
    List ℚ :=
  if iterations ≤ 0 ∨ positions.length = 0 then positions
  else
    let numVerts := positions.length / 3
    let nbr := neighbors indices
    (List.range (⌈2 * iterations⌉).toNat).foldl
      (fun result iter =>
        smoothPass nbr numVerts (if iter % 2 = 0 then 1/2 else -53/100) result)
      positions

/-- Pointwise accumulation into a rational map, modelling `arr[j] += x`. -/
def addAt (f : ℕ → ℚ) (j : ℕ) (x : ℚ) : ℕ → ℚ := fun k => if k = j then f j + x else f k

/-- Area-weighted smooth per-vertex normals (source lines 107-144).  The
accumulation pass adds each face's unnormalised cross product to its three
corners (sequentially, as the source does); the second pass normalises every
accumulator whose length exceeds 1e-8, leaving short ones untouched.
`Math.sqrt` is abstracted as `msqrt`. -/
def computeVertexNormals (msqrt : ℚ → ℚ) (pos : List ℚ) (idx : List ℕ) : List ℚ :=
  let numVerts := pos.length / 3
  let p : ℕ → ℚ := fun j => pos.getD j 0
  let acc : ℕ → ℚ := (faceTriples idx).foldl
    (fun nrm t =>
      let i0 := t.1
      let i1 := t.2.1
      let i2 := t.2.2
      let ax := p (i1 * 3) - p (i0 * 3)
      let ay := p (i1 * 3 + 1) - p (i0 * 3 + 1)
      let az := p (i1 * 3 + 2) - p (i0 * 3 + 2)
      let bx := p (i2 * 3) - p (i0 * 3)
      let by' := p (i2 * 3 + 1) - p (i0 * 3 + 1)
      let bz := p (i2 * 3 + 2) - p (i0 * 3 + 2)
      let nx := ay * bz - az * by'
      let ny := az * bx - ax * bz
      let nz := ax * by' - ay * bx
      addAt (addAt (addAt (addAt (addAt (addAt (addAt (addAt (addAt nrm
        (i0 * 3) nx) (i0 * 3 + 1) ny) (i0 * 3 + 2) nz)
        (i1 * 3) nx) (i1 * 3 + 1) ny) (i1 * 3 + 2) nz)
        (i2 * 3) nx) (i2 * 3 + 1) ny) (i2 * 3 + 2) nz)
    (fun _ => 0)
  (List.range numVerts).flatMap fun v =>
    let x := acc (v * 3)
    let y := acc (v * 3 + 1)
    let z := acc (v * 3 + 2)
    let len := msqrt (x * x + y * y + z * z)
    if 1/100000000 < len then [x * (1/len), y * (1/len), z * (1/len)]
    else [x, y, z]

/-- The indexed mesh buffers returned by the generator (`MeshData` in
`types.ts`). -/
structure MeshData where
  vertices : List ℚ
  normals : List ℚ
  indices : List ℕ

/-- The pipeline of source lines 236-503 up to (and including) conditional
component extraction: cell snapping, derived grid dimensions, field build,
boundary voiding, marching cubes, then largest-component extraction in shell
mode only.  The smoothing iteration count plays no role in these stages, so
this definition does not receive it.  `res = Math.floor(resolution)`;
`sinRad[i]`/`cosRad[i]` stand for `Math.sin/cos(mm[i] * 2π / snappedCellSize)`
with the trig abstracted as `sinA`/`cosA` applied to `(mm[i], snappedCellSize)`. -/
def preMesh (sinA cosA : ℚ → ℚ → ℚ) (tt : ℕ → ℤ)
    (size cellSize wallThickness shellThickness frameBeamWidth resolution : ℚ)
    (useFrame makeManifold : Bool) : List ℚ × List ℕ :=
  let snapped := snappedCellSize size cellSize
  let res := (⌊resolution⌋).toNat
  let step := size / (res : ℚ)
  let half := size / 2
  let np := res + 1
  let np2 := np * np
  let faceDepth := shellThickness + step * 2
  let mm : ℕ → ℚ := fun i => -half + (i : ℚ) * step
  let sinRad : ℕ → ℚ := fun i => sinA (mm i) snapped
  let cosRad : ℕ → ℚ := fun i => cosA (mm i) snapped
  let field0 := buildField wallThickness shellThickness frameBeamWidth useFrame
    makeManifold half step faceDepth sinRad cosRad mm np np2
  let field := voidBoundary field0 res np np2
  let st := marchCubes field tt res np np2 half step
  if useFrame then (st.positions, st.faces)
  else extractLargestComponent st.positions st.faces

/-- The post-extraction stages of source lines 506-517: Taubin smoothing when
`smoothingIterations > 0` (positions only), then vertex normals, assembled
into the returned `MeshData`. -/
def generateMesh (sinA cosA : ℚ → ℚ → ℚ) (msqrt : ℚ → ℚ) (tt : ℕ → ℤ)
    (q : ResolvedParams) : MeshData :=
  let pr := preMesh sinA cosA tt q.size q.cellSize q.wallThickness
    q.shellThickness q.frameBeamWidth q.resolution q.useFrame q.makeManifold
  let posS := if 0 < q.smoothingIterations
    then taubinSmooth pr.1 pr.2 q.smoothingIterations else pr.1
  ⟨posS, computeVertexNormals msqrt posS pr.2, pr.2⟩

/-- The generator entry point (source lines 220-518).  Parameter validation
mirrors source lines 232-234 and their order: the JS guards
`!cellSize || cellSize <= 0` etc. reject exactly the non-positive values over
the rationals.  Progress callbacks, cooperative yields and console logging
have no effect on the returned buffers and are not modelled.  Errors are the
thrown `Error` messages. -/
def generateGyroidMesh (sinA cosA : ℚ → ℚ → ℚ) (msqrt : ℚ → ℚ) (tt : ℕ → ℤ)
    (p : GenParams) : Except String MeshData :=
  let q := resolveParams p
  if q.cellSize ≤ 0 then .error ("Invalid cell size")
  else if q.resolution ≤ 0 then .error ("Invalid resolution")
  else if q.size ≤ 0 then .error ("Invalid size")
  else .ok (generateMesh sinA cosA msqrt tt q)

/-- The initial parameter record of the UI (`App.tsx` lines 12-25); every
field is present there, including `smoothingIterations: 8`. -/
def appDefaultParams : GenParams where
  size := 100
  cellSize := 25
  wallThickness := 35/100
  shellThickness := 3
  useFrame := some false
  frameBeamWidth := some 10
  resolution := 60
  smoothingIterations := some 8
  makeManifold := some false

/-- One byte of the binary STL buffer.  Byte values produced by
`DataView.setFloat32`/`setUint32`/`setUint16` are represented symbolically as
(value, little-endian byte position) pairs; the IEEE-754 float32 bit encoding
itself is outside the rational model.  `zero` is a zero-initialised byte of
the fresh `ArrayBuffer`. -/
inductive STLByte where
  | zero : STLByte
  | u32 : ℕ → ℕ → STLByte
  | f32 : ℚ → ℕ → STLByte
  | u16 : ℕ → ℕ → STLByte

/-- The four bytes written by a little-endian `setFloat32`. -/
def f32bytes (v : ℚ) : List STLByte := [.f32 v 0, .f32 v 1, .f32 v 2, .f32 v 3]

/-- The four bytes written by a little-endian `setUint32`. -/
def u32bytes (v : ℕ) : List STLByte := [.u32 v 0, .u32 v 1, .u32 v 2, .u32 v 3]

/-- The two bytes written by a little-endian `setUint16`. -/
def u16bytes (v : ℕ) : List STLByte := [.u16 v 0, .u16 v 1]

/-- The recomputed face normal of source lines 551-563: normalised cross
product, or the zero vector when its length is at most 1e-8. -/
def faceNormal (msqrt : ℚ → ℚ) (vertices : List ℚ) (i0 i1 i2 : ℕ) : ℚ × ℚ × ℚ :=
  let p : ℕ → ℚ := fun j => vertices.getD j 0
  let ax := p (i1 * 3) - p (i0 * 3)
  let ay := p (i1 * 3 + 1) - p (i0 * 3 + 1)
  let az := p (i1 * 3 + 2) - p (i0 * 3 + 2)
  let bx := p (i2 * 3) - p (i0 * 3)
  let by' := p (i2 * 3 + 1) - p (i0 * 3 + 1)
  let bz := p (i2 * 3 + 2) - p (i0 * 3 + 2)
  let nx := ay * bz - az * by'
  let ny := az * bx - ax * bz
  let nz := ax * by' - ay * bx
  let len := msqrt (nx * nx + ny * ny + nz * nz)
  if 1/100000000 < len then (nx * (1/len), ny * (1/len), nz * (1/len))
  else (0, 0, 0)

/-- The 50-byte record of triangle `f` (source lines 545-589): face normal at
record offsets 0/4/8, vertex 0 at 12/16/20, vertex 1 at 24/28/32, vertex 2 at
36/40/44, and the zero attribute byte count at 48. -/
def triRecord (msqrt : ℚ → ℚ) (vertices : List ℚ) (indices : List ℕ) (f : ℕ) :
    List STLByte :=
  let i0 := indices.getD (f * 3) 0
  let i1 := indices.getD (f * 3 + 1) 0
  let i2 := indices.getD (f * 3 + 2) 0
  let n := faceNormal msqrt vertices i0 i1 i2
  f32bytes n.1 ++ f32bytes n.2.1 ++ f32bytes n.2.2
  ++ f32bytes (vertices.getD (i0 * 3) 0)
  ++ f32bytes (vertices.getD (i0 * 3 + 1) 0)
  ++ f32bytes (vertices.getD (i0 * 3 + 2) 0)
  ++ f32bytes (vertices.getD (i1 * 3) 0)
  ++ f32bytes (vertices.getD (i1 * 3 + 1) 0)
  ++ f32bytes (vertices.getD (i1 * 3 + 2) 0)
  ++ f32bytes (vertices.getD (i2 * 3) 0)
  ++ f32bytes (vertices.getD (i2 * 3 + 1) 0)
  ++ f32bytes (vertices.getD (i2 * 3 + 2) 0)
  ++ u16bytes 0

/-- Binary STL export (source lines 525-600).  With no triangles the source
returns before allocating any buffer (modelled as `none`).  Otherwise the
`ArrayBuffer(80 + 4 + numTriangles * 50)` is written by `DataView` calls at
strictly increasing offsets that tile the buffer exactly — the 80 zero bytes
of the header are left as allocated, the uint32 triangle count sits at offset
80, and triangle `f`'s 50-byte record at offset `84 + 50 * f` — so the
resulting byte string is the concatenation below.  The browser download
plumbing (Blob/link click) transports the buffer unchanged and is out of the
modelled core (spec §6: `exportSTL(meshData) → bytes`). -/
def exportToSTL (msqrt : ℚ → ℚ) (d : MeshData) : Option (List STLByte) :=
  if d.indices.length = 0 then none
  else
    let numTriangles := d.indices.length / 3
    some (List.replicate 80 STLByte.zero ++ u32bytes numTriangles
      ++ (List.range numTriangles).flatMap (triRecord msqrt d.vertices d.indices))

/-- The STL bytes of a generator result, when it produced a mesh. -/
def stlOfResult (msqrt : ℚ → ℚ) : Except String MeshData → Option (List STLByte)
  | .ok m => exportToSTL msqrt m
  | .error _ => none

/-- Strict lexicographic order on `(z, y, x)` sweep coordinates. -/
def sweepLt (a b : ℕ × ℕ × ℕ) : Prop :=
  a.1 < b.1 ∨ (a.1 = b.1 ∧ (a.2.1 < b.2.1 ∨ (a.2.1 = b.2.1 ∧ a.2.2 < b.2.2)))

/-- Well-formedness of an indexed triangle list: the index buffer holds whole
triples and every entry addresses an existing vertex. -/
def IndexOK (positions : List ℚ) (faces : List ℕ) : Prop :=
  faces.length % 3 = 0 ∧ ∀ i ∈ faces, i < positions.length / 3

/-- Invariant of the marching-cubes sweep state: every non-negative cache
entry is a valid vertex index, and the emitted triangles are well-formed. -/
def MCInv (s : MCState) : Prop :=
  (∀ d g, 0 ≤ s.cache d g → (s.cache d g).toNat < s.positions.length / 3)
  ∧ IndexOK s.positions s.faces

theorem pairwise_flatMap {α β : Type} (R : β → β → Prop) (l : List α)
    (g : α → List β) (h1 : ∀ a ∈ l, List.Pairwise R (g a))
    (h2 : List.Pairwise (fun a b => ∀ x ∈ g a, ∀ y ∈ g b, R x y) l) :
    List.Pairwise R (l.flatMap g) := by
  induction l with
  | nil => simp
  | cons a tl ih =>
    rw [List.flatMap_cons, List.pairwise_append]
    rw [List.pairwise_cons] at h2
    refine ⟨h1 a (by simp), ih (fun b hb => h1 b (by simp [hb])) h2.2, ?_⟩
    intro x hx y hy
    rcases List.mem_flatMap.mp hy with ⟨b, hb, hyb⟩
    exact h2.1 b hb x hx y hyb

theorem cubeCoords_sorted (res : ℕ) : List.Pairwise sweepLt (cubeCoords res) := by
  unfold cubeCoords
  apply pairwise_flatMap
  · intro z _
    apply pairwise_flatMap
    · intro y _
      rw [List.pairwise_map]
      exact (List.pairwise_lt_range res).imp fun h => Or.inr ⟨rfl, Or.inr ⟨rfl, h⟩⟩
    · apply (List.pairwise_lt_range res).imp
      intro y y' hyy x hx x' hx'
      rcases List.mem_map.mp hx with ⟨a, _, rfl⟩
      rcases List.mem_map.mp hx' with ⟨a', _, rfl⟩
      exact Or.inr ⟨rfl, Or.inl hyy⟩
  · apply (List.pairwise_lt_range res).imp
    intro z z' hzz x hx x' hx'
    rcases List.mem_flatMap.mp hx with ⟨y, _, hx⟩
    rcases List.mem_map.mp hx with ⟨a, _, rfl⟩
    rcases List.mem_flatMap.mp hx' with ⟨y', _, hx'⟩
    rcases List.mem_map.mp hx' with ⟨a', _, rfl⟩
    exact Or.inl hzz

/-- C3: `generate` is deterministic: two runs with identical parameter
records (and the same host trig/sqrt primitives and triangle table) return
element-for-element identical mesh buffers, hence identical STL bytes; the
marching-cubes sweep visits the cubes in strictly increasing
(z-outer, y-middle, x-inner) lexicographic order, so vertex emission order is
a deterministic function of the inputs. -/
theorem c3_determinism (sinA cosA : ℚ → ℚ → ℚ) (msqrt : ℚ → ℚ) (tt : ℕ → ℤ)
    (p₁ p₂ : GenParams) (res : ℕ) (h : p₁ = p₂) :
    generateGyroidMesh sinA cosA msqrt tt p₁ = generateGyroidMesh sinA cosA msqrt tt p₂
    ∧ stlOfResult msqrt (generateGyroidMesh sinA cosA msqrt tt p₁)
        = stlOfResult msqrt (generateGyroidMesh sinA cosA msqrt tt p₂)
    ∧ List.Pairwise sweepLt (cubeCoords res) := by
  subst h
  exact ⟨rfl, rfl, cubeCoords_sorted res⟩

theorem c3_determinism_witness :
    generateGyroidMesh (fun _ _ => 0) (fun _ _ => 0) (fun q => q) (fun _ => -1)
        appDefaultParams
      = generateGyroidMesh (fun _ _ => 0) (fun _ _ => 0) (fun q => q) (fun _ => -1)
        appDefaultParams
    ∧ List.Pairwise sweepLt (cubeCoords 2) :=
  ⟨(c3_determinism _ _ _ _ appDefaultParams appDefaultParams 2 rfl).1,
   (c3_determinism (fun _ _ => 0) (fun _ _ => 0) (fun q => q) (fun _ => -1)
      appDefaultParams appDefaultParams 2 rfl).2.2⟩

/-- C4: `generate` fails (with one of the three invalid-parameter `Error`
messages, the `InvalidParameter` kind of the spec) exactly when
`size ≤ 0`, `cellSize ≤ 0` or `resolution ≤ 0`, and on failure it returns no
mesh at all. -/
theorem c4_invalid_params (sinA cosA : ℚ → ℚ → ℚ) (msqrt : ℚ → ℚ) (tt : ℕ → ℤ)
    (p : GenParams) :
    ((∃ e, generateGyroidMesh sinA cosA msqrt tt p = .error e) ↔
      (p.size ≤ 0 ∨ p.cellSize ≤ 0 ∨ p.resolution ≤ 0))
    ∧ ∀ e, generateGyroidMesh sinA cosA msqrt tt p = .error e →
        ∀ m, generateGyroidMesh sinA cosA msqrt tt p ≠ .ok m := by
  constructor
  · show (∃ e, (if p.cellSize ≤ 0 then _ else _) = _) ↔ _
    split_ifs with h1 h2 h3
    · exact iff_of_true ⟨_, rfl⟩ (Or.inr (Or.inl h1))
    · exact iff_of_true ⟨_, rfl⟩ (Or.inr (Or.inr h2))
    · exact iff_of_true ⟨_, rfl⟩ (Or.inl h3)
    · refine iff_of_false ?_ ?_
      · rintro ⟨e, he⟩
        cases he
      · rintro (h | h | h) <;> [exact h3 h; exact h1 h; exact h2 h]
  · intro e he m hm
    rw [he] at hm
    exact Except.noConfusion hm

theorem c4_invalid_params_witness :
    ∃ e, generateGyroidMesh (fun _ _ => 0) (fun _ _ => 0) (fun q => q) (fun _ => -1)
      { appDefaultParams with cellSize := -1 } = .error e :=
  (c4_invalid_params _ _ _ _ _).1.mpr (Or.inr (Or.inl (by norm_num)))

/-- C5: Cell snapping — the effective cell size handed to the field builder is
`size / max(1, round(size / cellSize))`; in particular size=100, cellSize=30
gives exactly 100/3 mm (and the value depends on no other parameter, as
`snappedCellSize` takes only these two). -/
theorem c5_cell_snapping (size cellSize : ℚ) (_hs : 0 < size) (_hc : 0 < cellSize) :
    snappedCellSize size cellSize = size / ((max 1 (jround (size / cellSize)) : ℤ) : ℚ)
    ∧ snappedCellSize 100 30 = 100/3 := by
  refine ⟨rfl, ?_⟩
  with_unfolding_all rfl

theorem c5_cell_snapping_witness :
    (0 : ℚ) < 100 ∧ (0 : ℚ) < 30 ∧ snappedCellSize 100 30 = 100/3 :=
  ⟨by norm_num, by norm_num, (c5_cell_snapping 100 30 (by norm_num) (by norm_num)).2⟩

/-- C6: Frame openness — a voxel strictly farther than `frameBeamWidth` from
every cube face is not marked structural, and a voxel is structural exactly
when it is within `frameBeamWidth` of at least two perpendicular faces
(at least two of the three per-axis near-face conditions hold). -/
theorem c6_frame_openness (half bw x y z : ℚ) :
    ((|x| < half - bw ∧ |y| < half - bw ∧ |z| < half - bw) →
      frameStructural half bw x y z = false)
    ∧ (frameStructural half bw x y z = true ↔
        2 ≤ (if half - bw ≤ |x| then 1 else 0) + (if half - bw ≤ |y| then 1 else 0)
          + (if half - bw ≤ |z| then (1 : ℕ) else 0)) := by
  constructor
  · rintro ⟨hx, hy, hz⟩
    have hx' : ¬(half - bw ≤ |x|) := not_le.mpr hx
    have hy' : ¬(half - bw ≤ |y|) := not_le.mpr hy
    have hz' : ¬(half - bw ≤ |z|) := not_le.mpr hz
    simp [frameStructural, hx', hy', hz']
  · by_cases hx : half - bw ≤ |x| <;> by_cases hy : half - bw ≤ |y| <;>
      by_cases hz : half - bw ≤ |z| <;> simp [frameStructural, hx, hy, hz]

theorem c6_frame_openness_witness :
    frameStructural 50 10 0 0 0 = false ∧ frameStructural 50 10 45 45 0 = true :=
  ⟨(c6_frame_openness 50 10 0 0 0).1 (by norm_num),
   (c6_frame_openness 50 10 45 45 0).2.mpr (by norm_num)⟩

/-- C9 counterexample: with `smoothingIterations` absent from the input
record, the generator's destructuring default (source line 227) is 10, not
the documented 8 — so `generate` does not use 8 for an omitted field. -/
theorem c9_default_counterexample :
    (resolveParams { appDefaultParams with smoothingIterations := none }).smoothingIterations
      = 10 ∧ (10 : ℚ) ≠ 8 :=
  ⟨rfl, by norm_num⟩

/-- C9 (amended): when `smoothingIterations` is omitted, `generate` falls
back to 10; the documented default list (with smoothingIterations = 8 and the
other stated values) is the UI's initial parameter record in `App.tsx`, which
passes every field explicitly. -/
theorem c9_defaults_amended :
    (∀ p : GenParams, p.smoothingIterations = none →
      (resolveParams p).smoothingIterations = 10)
    ∧ appDefaultParams.smoothingIterations = some 8
    ∧ resolveParams appDefaultParams = ⟨100, 25, 35/100, 3, false, 10, 60, 8, false⟩ := by
  refine ⟨fun p hp => ?_, rfl, rfl⟩
  simp [resolveParams, hp]

theorem c9_defaults_amended_witness :
    (resolveParams { appDefaultParams with smoothingIterations := none }).smoothingIterations
      = 10 :=
  c9_defaults_amended.1 { appDefaultParams with smoothingIterations := none } rfl

/-- C10: exporting a mesh whose index buffer is empty returns immediately
with no byte buffer at all (the `!indices || indices.length === 0` guard; a
missing `indices` field takes the same early return). -/
theorem c10_export_empty (msqrt : ℚ → ℚ) (d : MeshData) (h : d.indices = []) :
    exportToSTL msqrt d = none := by
  simp [exportToSTL, h]

theorem c10_export_empty_witness :
    exportToSTL (fun q => q) ⟨[], [], []⟩ = none :=
  c10_export_empty (fun q => q) ⟨[], [], []⟩ rfl

theorem length_flatMap_const {α : Type} (g : ℕ → List α) (c T : ℕ)
    (h : ∀ f < T, (g f).length = c) :
    ((List.range T).flatMap g).length = T * c := by
  induction T with
  | zero => simp
  | succ n ih =>
    rw [List.range_succ, List.flatMap_append, List.length_append,
      ih (fun f hf => h f (by omega))]
    simp [h n (by omega), Nat.succ_mul]

theorem getD_flatMap_const {α : Type} (g : ℕ → List α) (c T f j : ℕ) (d : α)
    (hf : f < T) (hj : j < c) (h : ∀ k < T, (g k).length = c) :
    ((List.range T).flatMap g).getD (c * f + j) d = (g f).getD j d := by
  induction T with
  | zero => omega
  | succ n ih =>
    rw [List.range_succ, List.flatMap_append]
    by_cases hfn : f < n
    · rw [List.getD_append]
      · exact ih hfn (fun k hk => h k (by omega))
      · rw [length_flatMap_const g c n (fun k hk => h k (by omega))]
        have h1 : (f + 1) * c ≤ n * c := Nat.mul_le_mul_right c (by omega)
        calc c * f + j < c * f + c := by omega
          _ = (f + 1) * c := by ring
          _ ≤ n * c := h1
    · have hfe : f = n := by omega
      subst hfe
      rw [List.getD_append_right]
      · rw [length_flatMap_const g c f (fun k hk => h k (by omega))]
        have : c * f + j - f * c = j := by
          have : c * f = f * c := by ring
          omega
        rw [this]
        simp
      · rw [length_flatMap_const g c f (fun k hk => h k (by omega))]
        have : c * f = f * c := by ring
        omega

theorem triRecord_length (msqrt : ℚ → ℚ) (vertices : List ℚ) (indices : List ℕ)
    (f : ℕ) : (triRecord msqrt vertices indices f).length = 50 := by
  simp [triRecord, f32bytes, u16bytes]

theorem getD_replicate {α : Type} (n k : ℕ) (a d : α) (hk : k < n) :
    (List.replicate n a).getD k d = a := by
  induction n generalizing k with
  | zero => omega
  | succ m ih =>
    cases k with
    | zero => rfl
    | succ k2 => exact ih k2 (by omega)

/-- C2 (amended to meshes with at least one triangle; the empty case takes
the early return of C10): `exportSTL` emits the 80-byte zeroed header, the
little-endian uint32 triangle count at offset 80, and exactly
`indices.length / 3` fifty-byte records at offsets `84 + 50 f`, each holding
the float32 face normal, the three float32 vertices and the zero uint16
attribute count (the layout of `triRecord`); the whole buffer has
`84 + 50 · triangleCount` bytes. -/
theorem c2_stl_layout (msqrt : ℚ → ℚ) (d : MeshData) (h : d.indices ≠ []) :
    ∃ bs, exportToSTL msqrt d = some bs
      ∧ bs.length = 84 + 50 * (d.indices.length / 3)
      ∧ (∀ f < d.indices.length / 3,
          (triRecord msqrt d.vertices d.indices f).length = 50)
      ∧ (∀ k < 80, bs.getD k .zero = .zero)
      ∧ (∀ j < 4, bs.getD (80 + j) .zero = .u32 (d.indices.length / 3) j)
      ∧ (∀ f < d.indices.length / 3, ∀ j < 50,
          bs.getD (84 + 50 * f + j) .zero
            = (triRecord msqrt d.vertices d.indices f).getD j .zero) := by
  have hlen : d.indices.length ≠ 0 := fun h0 => h (List.length_eq_zero.mp h0)
  refine ⟨List.replicate 80 STLByte.zero ++ u32bytes (d.indices.length / 3)
    ++ (List.range (d.indices.length / 3)).flatMap (triRecord msqrt d.vertices d.indices),
    ?_, ?_, ?_, ?_, ?_, ?_⟩
  · simp [exportToSTL, hlen]
  · rw [List.append_assoc, List.length_append, List.length_append,
      length_flatMap_const _ 50 _ (fun f _ => triRecord_length msqrt d.vertices d.indices f)]
    simp [u32bytes]
    ring
  · exact fun f _ => triRecord_length msqrt d.vertices d.indices f
  · intro k hk
    rw [List.append_assoc, List.getD_append _ _ _ k (by simp; omega)]
    exact getD_replicate 80 k _ _ hk
  · intro j hj
    rw [List.append_assoc, List.getD_append_right _ _ _ (80 + j) (by simp)]
    simp only [List.length_replicate, Nat.add_sub_cancel_left]
    rw [List.getD_append _ _ _ j (by simp [u32bytes]; omega)]
    interval_cases j <;> rfl
  · intro f hf j hj
    have hu4 : (u32bytes (d.indices.length / 3)).length = 4 := by simp [u32bytes]
    rw [List.append_assoc,
      List.getD_append_right _ _ _ _ (by simp; omega),
      List.getD_append_right _ _ _ _ (by rw [hu4]; simp; omega)]
    rw [List.length_replicate, hu4]
    have harith : 84 + 50 * f + j - 80 - 4 = 50 * f + j := by omega
    rw [harith]
    exact getD_flatMap_const _ 50 _ f j _ hf hj
      (fun k _ => triRecord_length msqrt d.vertices d.indices k)

/-- C2 counterexample: on the empty mesh `exportSTL` produces no byte buffer
at all — in particular not the 84-byte zero-triangle file that the claim, as
universally stated over every `MeshData`, would require. -/
theorem c2_stl_counterexample :
    exportToSTL (fun q => q) ⟨[], [], []⟩ = none
    ∧ ¬∃ bs, exportToSTL (fun q => q) ⟨[], [], []⟩ = some bs ∧ bs.length = 84 := by
  refine ⟨rfl, ?_⟩
  rintro ⟨bs, hbs, -⟩
  rw [show exportToSTL (fun q => q) ⟨[], [], []⟩ = none from rfl] at hbs
  cases hbs

theorem jsDedup_aux {x : ℕ} : ∀ (l acc : List ℕ),
    x ∈ l.foldl (fun acc n => if n ∈ acc then acc else acc ++ [n]) acc →
    x ∈ acc ∨ x ∈ l := by
  intro l
  induction l with
  | nil => exact fun acc h => Or.inl h
  | cons a tl ih =>
    intro acc h
    rcases ih _ h with hx | hx
    · by_cases ha : a ∈ acc
      · simp only [ha, if_true] at hx
        exact Or.inl hx
      · simp only [ha, if_false] at hx
        rcases List.mem_append.mp hx with h1 | h1
        · exact Or.inl h1
        · simp only [List.mem_singleton] at h1
          subst h1
          exact Or.inr (by simp)
    · exact Or.inr (by simp [hx])

theorem jsDedup_subset {l : List ℕ} {n : ℕ} (h : n ∈ jsDedup l) : n ∈ l := by
  unfold jsDedup at h
  rcases jsDedup_aux l [] h with h1 | h1
  · cases h1
  · exact h1

theorem getD_mem_of_lt {l : List ℕ} {i : ℕ} (h : i < l.length) : l.getD i 0 ∈ l := by
  rw [List.getD_eq_getElem?_getD, List.getElem?_eq_getElem h]
  exact List.getElem_mem h

theorem adjContrib_mem {v n : ℕ} {t : ℕ × ℕ × ℕ} (h : n ∈ adjContrib v t) :
    n = t.1 ∨ n = t.2.1 ∨ n = t.2.2 := by
  by_cases h1 : v = t.1 <;> by_cases h2 : v = t.2.1 <;> by_cases h3 : v = t.2.2 <;>
    simp [adjContrib, h1, h2, h3] at h <;> tauto

theorem mem_of_mem_neighbors {indices : List ℕ} {v n : ℕ}
    (h : n ∈ neighbors indices v) : n ∈ indices := by
  unfold neighbors at h
  have h2 := jsDedup_subset h
  rcases List.mem_flatMap.mp h2 with ⟨t, ht, hnt⟩
  rcases List.mem_map.mp ht with ⟨f, hf, rfl⟩
  have hf3 : f < indices.length / 3 := List.mem_range.mp hf
  have hb0 : f * 3 < indices.length := by omega
  have hb1 : f * 3 + 1 < indices.length := by omega
  have hb2 : f * 3 + 2 < indices.length := by omega
  rcases adjContrib_mem hnt with h | h | h <;> rw [h]
  · exact getD_mem_of_lt hb0
  · exact getD_mem_of_lt hb1
  · exact getD_mem_of_lt hb2

theorem neighbor_sum_plane (ns : List ℕ) (temp : List ℚ) (a b c d : ℚ)
    (h : ∀ n ∈ ns, a * temp.getD (n * 3) 0 + b * temp.getD (n * 3 + 1) 0
      + c * temp.getD (n * 3 + 2) 0 = d) :
    a * (ns.map fun n => temp.getD (n * 3) 0).sum
    + b * (ns.map fun n => temp.getD (n * 3 + 1) 0).sum
    + c * (ns.map fun n => temp.getD (n * 3 + 2) 0).sum = (ns.length : ℚ) * d := by
  induction ns with
  | nil => simp
  | cons n tl ih =>
    simp only [List.map_cons, List.sum_cons, List.length_cons]
    have h1 := h n (by simp)
    have h2 := ih fun m hm => h m (by simp [hm])
    push_cast
    linarith

theorem smoothVertex_length (nbr : ℕ → List ℕ) (factor : ℚ) (temp : List ℚ)
    (v : ℕ) : (smoothVertex nbr factor temp v).length = 3 := by
  simp only [smoothVertex]
  split <;> simp

theorem smoothPass_getD (nbr : ℕ → List ℕ) (numVerts : ℕ) (factor : ℚ)
    (temp : List ℚ) (v j : ℕ) (hv : v < numVerts) (hj : j < 3) :
    (smoothPass nbr numVerts factor temp).getD (3 * v + j) 0
      = (smoothVertex nbr factor temp v).getD j 0 := by
  unfold smoothPass
  rw [List.getD_append _ _ _ _ ?bound]
  case bound =>
    rw [length_flatMap_const _ 3 _ (fun k _ => smoothVertex_length nbr factor temp k)]
    have : (v + 1) * 3 ≤ numVerts * 3 := Nat.mul_le_mul_right 3 (by omega)
    omega
  exact getD_flatMap_const _ 3 _ v j _ hv hj
    (fun k _ => smoothVertex_length nbr factor temp k)

theorem smoothPass_plane (indices : List ℕ) (numVerts : ℕ) (factor : ℚ)
    (temp : List ℚ) (a b c d : ℚ)
    (hidx : ∀ i ∈ indices, i < numVerts)
    (hpl : ∀ v < numVerts, a * temp.getD (v * 3) 0 + b * temp.getD (v * 3 + 1) 0
      + c * temp.getD (v * 3 + 2) 0 = d) :
    ∀ v < numVerts,
      a * (smoothPass (neighbors indices) numVerts factor temp).getD (v * 3) 0
      + b * (smoothPass (neighbors indices) numVerts factor temp).getD (v * 3 + 1) 0
      + c * (smoothPass (neighbors indices) numVerts factor temp).getD (v * 3 + 2) 0
      = d := by
  intro v hv
  have g0 : (smoothPass (neighbors indices) numVerts factor temp).getD (v * 3) 0
      = (smoothVertex (neighbors indices) factor temp v).getD 0 0 := by
    rw [show v * 3 = 3 * v + 0 by ring]
    exact smoothPass_getD _ _ _ _ v 0 hv (by omega)
  have g1 : (smoothPass (neighbors indices) numVerts factor temp).getD (v * 3 + 1) 0
      = (smoothVertex (neighbors indices) factor temp v).getD 1 0 := by
    rw [show v * 3 + 1 = 3 * v + 1 by ring]
    exact smoothPass_getD _ _ _ _ v 1 hv (by omega)
  have g2 : (smoothPass (neighbors indices) numVerts factor temp).getD (v * 3 + 2) 0
      = (smoothVertex (neighbors indices) factor temp v).getD 2 0 := by
    rw [show v * 3 + 2 = 3 * v + 2 by ring]
    exact smoothPass_getD _ _ _ _ v 2 hv (by omega)
  rw [g0, g1, g2]
  simp only [smoothVertex]
  by_cases hns : (neighbors indices v).length = 0
  · simp only [hns, if_true]
    simpa using hpl v hv
  · simp only [hns, if_false]
    have hmem : ∀ n ∈ neighbors indices v, a * temp.getD (n * 3) 0
        + b * temp.getD (n * 3 + 1) 0 + c * temp.getD (n * 3 + 2) 0 = d :=
      fun n hn => hpl n (hidx n (mem_of_mem_neighbors hn))
    have key := neighbor_sum_plane (neighbors indices v) temp a b c d hmem
    have hd := hpl v hv
    have hL : ((neighbors indices v).length : ℚ) ≠ 0 := Nat.cast_ne_zero.mpr hns
    simp only [List.getD_cons_zero, List.getD_cons_succ]
    simp only [List.getD_eq_getElem?_getD] at key hd ⊢
    field_simp
    linear_combination ((1 - factor) * ((neighbors indices v).length : ℚ)) * hd
      + factor * key

theorem taubinSmooth_plane (positions : List ℚ) (indices : List ℕ)
    (it a b c d : ℚ)
    (hidx : ∀ i ∈ indices, i < positions.length / 3)
    (hpl : ∀ v < positions.length / 3,
      a * positions.getD (v * 3) 0 + b * positions.getD (v * 3 + 1) 0
      + c * positions.getD (v * 3 + 2) 0 = d) :
    ∀ v < positions.length / 3,
      a * (taubinSmooth positions indices it).getD (v * 3) 0
      + b * (taubinSmooth positions indices it).getD (v * 3 + 1) 0
      + c * (taubinSmooth positions indices it).getD (v * 3 + 2) 0 = d := by
  unfold taubinSmooth
  split
  · exact hpl
  · have main : ∀ (l : List ℕ) (temp : List ℚ),
        (∀ v < positions.length / 3,
          a * temp.getD (v * 3) 0 + b * temp.getD (v * 3 + 1) 0
          + c * temp.getD (v * 3 + 2) 0 = d) →
        ∀ v < positions.length / 3,
          a * (l.foldl (fun result iter =>
            smoothPass (neighbors indices) (positions.length / 3)
              (if iter % 2 = 0 then 1/2 else -53/100) result) temp).getD (v * 3) 0
          + b * (l.foldl (fun result iter =>
            smoothPass (neighbors indices) (positions.length / 3)
              (if iter % 2 = 0 then 1/2 else -53/100) result) temp).getD (v * 3 + 1) 0
          + c * (l.foldl (fun result iter =>
            smoothPass (neighbors indices) (positions.length / 3)
              (if iter % 2 = 0 then 1/2 else -53/100) result) temp).getD (v * 3 + 2) 0
          = d := by
      intro l
      induction l with
      | nil => exact fun temp h => h
      | cons head tl ih =>
        intro temp h
        exact ih _ (smoothPass_plane indices _ _ temp a b c d hidx h)
    exact main _ positions hpl

theorem smoothPass_length (nbr : ℕ → List ℕ) (numVerts : ℕ) (factor : ℚ)
    (temp : List ℚ) (h : numVerts * 3 ≤ temp.length) :
    (smoothPass nbr numVerts factor temp).length = temp.length := by
  unfold smoothPass
  rw [List.length_append,
    length_flatMap_const _ 3 _ (fun k _ => smoothVertex_length nbr factor temp k),
    List.length_drop]
  omega

theorem taubinSmooth_length (positions : List ℚ) (indices : List ℕ) (it : ℚ) :
    (taubinSmooth positions indices it).length = positions.length := by
  unfold taubinSmooth
  split
  · rfl
  · have main : ∀ (l : List ℕ) (temp : List ℚ), temp.length = positions.length →
        (l.foldl (fun result iter =>
          smoothPass (neighbors indices) (positions.length / 3)
            (if iter % 2 = 0 then 1/2 else -53/100) result) temp).length
        = positions.length := by
      intro l
      induction l with
      | nil => exact fun temp h => h
      | cons head tl ih =>
        intro temp h
        refine ih _ ?_
        rw [smoothPass_length _ _ _ _ ?bound, h]
        case bound =>
          rw [h]
          exact Nat.div_mul_le_self positions.length 3
    exact main _ positions rfl

theorem smoothVertex_of_no_neighbors (nbr : ℕ → List ℕ) (factor : ℚ)
    (temp : List ℚ) (v : ℕ) (hn : nbr v = []) :
    smoothVertex nbr factor temp v
      = [temp.getD (v * 3) 0, temp.getD (v * 3 + 1) 0, temp.getD (v * 3 + 2) 0] := by
  simp [smoothVertex, hn]

theorem taubinSmooth_no_neighbors (positions : List ℚ) (indices : List ℕ)
    (it : ℚ) (v : ℕ) (hv : v < positions.length / 3)
    (hn : neighbors indices v = []) :
    ((taubinSmooth positions indices it).getD (v * 3) 0,
     (taubinSmooth positions indices it).getD (v * 3 + 1) 0,
     (taubinSmooth positions indices it).getD (v * 3 + 2) 0)
    = (positions.getD (v * 3) 0, positions.getD (v * 3 + 1) 0,
       positions.getD (v * 3 + 2) 0) := by
  unfold taubinSmooth
  split
  · rfl
  · have main : ∀ (l : List ℕ) (temp : List ℚ),
        (temp.getD (v * 3) 0, temp.getD (v * 3 + 1) 0, temp.getD (v * 3 + 2) 0)
          = (positions.getD (v * 3) 0, positions.getD (v * 3 + 1) 0,
             positions.getD (v * 3 + 2) 0) →
        ((l.foldl (fun result iter =>
            smoothPass (neighbors indices) (positions.length / 3)
              (if iter % 2 = 0 then 1/2 else -53/100) result) temp).getD (v * 3) 0,
         (l.foldl (fun result iter =>
            smoothPass (neighbors indices) (positions.length / 3)
              (if iter % 2 = 0 then 1/2 else -53/100) result) temp).getD (v * 3 + 1) 0,
         (l.foldl (fun result iter =>
            smoothPass (neighbors indices) (positions.length / 3)
              (if iter % 2 = 0 then 1/2 else -53/100) result) temp).getD (v * 3 + 2) 0)
        = (positions.getD (v * 3) 0, positions.getD (v * 3 + 1) 0,
           positions.getD (v * 3 + 2) 0) := by
      intro l
      induction l with
      | nil => exact fun temp h => h
      | cons head tl ih =>
        intro temp h
        refine ih _ ?_
        have g0 : (smoothPass (neighbors indices) (positions.length / 3)
            (if head % 2 = 0 then 1/2 else -53/100) temp).getD (v * 3) 0
            = temp.getD (v * 3) 0 := by
          rw [show v * 3 = 3 * v + 0 by ring,
            smoothPass_getD _ _ _ _ v 0 hv (by omega),
            smoothVertex_of_no_neighbors _ _ _ _ hn]
          simp [Nat.mul_comm]
        have g1 : (smoothPass (neighbors indices) (positions.length / 3)
            (if head % 2 = 0 then 1/2 else -53/100) temp).getD (v * 3 + 1) 0
            = temp.getD (v * 3 + 1) 0 := by
          rw [show v * 3 + 1 = 3 * v + 1 by ring,
            smoothPass_getD _ _ _ _ v 1 hv (by omega),
            smoothVertex_of_no_neighbors _ _ _ _ hn]
          simp [Nat.mul_comm]
        have g2 : (smoothPass (neighbors indices) (positions.length / 3)
            (if head % 2 = 0 then 1/2 else -53/100) temp).getD (v * 3 + 2) 0
            = temp.getD (v * 3 + 2) 0 := by
          rw [show v * 3 + 2 = 3 * v + 2 by ring,
            smoothPass_getD _ _ _ _ v 2 hv (by omega),
            smoothVertex_of_no_neighbors _ _ _ _ hn]
          simp [Nat.mul_comm]
        rw [g0, g1, g2]
        exact h
    exact main _ positions rfl

theorem setC_cases (c : ℕ → ℕ → ℤ) (dir idx : ℕ) (v : ℤ) (d g : ℕ) :
    setC c dir idx v d g = v ∨ setC c dir idx v d g = c d g := by
  unfold setC
  split
  · exact Or.inl rfl
  · exact Or.inr rfl

theorem setE_cases (ev : ℕ → ℤ) (e : ℕ) (v : ℤ) (j : ℕ) :
    setE ev e v j = v ∨ setE ev e v j = ev j := by
  unfold setE
  split
  · exact Or.inl rfl
  · exact Or.inr rfl

theorem getEdgeVertex_spec (sf : ℕ → ℕ) (np np2 : ℕ) (half step : ℚ)
    (edge c0 : ℕ) (s : MCState) (h : MCInv s) :
    MCInv (getEdgeVertex sf np np2 half step edge c0 s).1
    ∧ (getEdgeVertex sf np np2 half step edge c0 s).2
        < (getEdgeVertex sf np np2 half step edge c0 s).1.positions.length / 3
    ∧ s.positions.length / 3
        ≤ (getEdgeVertex sf np np2 half step edge c0 s).1.positions.length / 3
    ∧ (getEdgeVertex sf np np2 half step edge c0 s).1.faces = s.faces := by
  obtain ⟨hcache, ⟨hfl, hfb⟩⟩ := h
  simp only [getEdgeVertex]
  split
  case isTrue hc =>
    exact ⟨⟨hcache, hfl, hfb⟩, hcache _ _ hc, le_refl _, rfl⟩
  case isFalse hc =>
    dsimp only
    simp only [List.length_append, List.length_cons, List.length_nil]
    refine ⟨⟨?_, hfl, ?_⟩, ?_, ?_, trivial⟩
    · intro d g hdg
      dsimp only at hdg ⊢
      simp only [List.length_append, List.length_cons, List.length_nil] at hdg ⊢
      rcases setC_cases s.cache (EDGE_DIR.getD edge 0)
          (c0 + cornerOff np np2 (EDGE_CACHE_CORNER.getD edge 0))
          ((s.positions.length / 3 : ℕ) : ℤ) d g with hcase | hcase <;>
        rw [hcase] at hdg ⊢
      · simp only [Int.toNat_natCast]
        omega
      · have := hcache d g hdg
        omega
    · intro i hi
      dsimp only at hi ⊢
      simp only [List.length_append, List.length_cons, List.length_nil]
      have := hfb i hi
      omega
    · omega
    · omega

theorem setI_cases (m : ℕ → ℤ) (i : ℕ) (v : ℤ) (j : ℕ) :
    setI m i v j = v ∨ setI m i v j = m j := by
  unfold setI
  split
  · exact Or.inl rfl
  · exact Or.inr rfl

theorem edgeStep_spec (sf : ℕ → ℕ) (np np2 : ℕ) (half step : ℚ)
    (edges c0 : ℕ) (acc : MCState × (ℕ → ℤ)) (e : ℕ)
    (h1 : MCInv acc.1)
    (h2 : ∀ j, 0 ≤ acc.2 j → (acc.2 j).toNat < acc.1.positions.length / 3) :
    MCInv (edgeStep sf np np2 half step edges c0 acc e).1
    ∧ (∀ j, 0 ≤ (edgeStep sf np np2 half step edges c0 acc e).2 j →
        ((edgeStep sf np np2 half step edges c0 acc e).2 j).toNat
          < (edgeStep sf np np2 half step edges c0 acc e).1.positions.length / 3)
    ∧ acc.1.positions.length / 3
        ≤ (edgeStep sf np np2 half step edges c0 acc e).1.positions.length / 3
    ∧ (edgeStep sf np np2 half step edges c0 acc e).1.faces = acc.1.faces
    ∧ (edges &&& (1 <<< e) ≠ 0 →
        1 ≤ (edgeStep sf np np2 half step edges c0 acc e).1.positions.length / 3) := by
  unfold edgeStep
  split
  case isTrue hbit =>
    obtain ⟨hinv, hlt, hmono, hfaces⟩ := getEdgeVertex_spec sf np np2 half step e c0 acc.1 h1
    dsimp only
    refine ⟨hinv, ?_, hmono, hfaces, fun _ => by omega⟩
    intro j hj
    rcases setE_cases acc.2 e ((getEdgeVertex sf np np2 half step e c0 acc.1).2 : ℤ) j
      with hc | hc <;> rw [hc] at hj ⊢
    · simp only [Int.toNat_natCast]
      exact hlt
    · exact lt_of_lt_of_le (h2 j hj) hmono
  case isFalse hbit =>
    exact ⟨h1, h2, le_refl _, rfl, fun hcontr => absurd hcontr hbit⟩

theorem edgeFold_spec (sf : ℕ → ℕ) (np np2 : ℕ) (half step : ℚ)
    (edges c0 : ℕ) :
    ∀ (l : List ℕ) (acc : MCState × (ℕ → ℤ)),
      MCInv acc.1 →
      (∀ j, 0 ≤ acc.2 j → (acc.2 j).toNat < acc.1.positions.length / 3) →
      MCInv (l.foldl (edgeStep sf np np2 half step edges c0) acc).1
      ∧ (∀ j, 0 ≤ (l.foldl (edgeStep sf np np2 half step edges c0) acc).2 j →
          ((l.foldl (edgeStep sf np np2 half step edges c0) acc).2 j).toNat
            < (l.foldl (edgeStep sf np np2 half step edges c0) acc).1.positions.length / 3)
      ∧ acc.1.positions.length / 3
          ≤ (l.foldl (edgeStep sf np np2 half step edges c0) acc).1.positions.length / 3
      ∧ (l.foldl (edgeStep sf np np2 half step edges c0) acc).1.faces = acc.1.faces
      ∧ ((∃ e ∈ l, edges &&& (1 <<< e) ≠ 0) →
          1 ≤ (l.foldl (edgeStep sf np np2 half step edges c0) acc).1.positions.length / 3) := by
  intro l
  induction l with
  | nil =>
    intro acc h1 h2
    refine ⟨h1, h2, le_refl _, rfl, ?_⟩
    rintro ⟨e, he, -⟩
    cases he
  | cons e tl ih =>
    intro acc h1 h2
    obtain ⟨s1, s2, s3, s4, s5⟩ := edgeStep_spec sf np np2 half step edges c0 acc e h1 h2
    obtain ⟨t1, t2, t3, t4, t5⟩ :=
      ih (edgeStep sf np np2 half step edges c0 acc e) s1 s2
    rw [List.foldl_cons]
    refine ⟨t1, t2, le_trans s3 t3, t4.trans s4, ?_⟩
    rintro ⟨e2, he2, hbit⟩
    rcases List.mem_cons.mp he2 with rfl | he2b
    · exact le_trans (s5 hbit) t3
    · exact t5 ⟨e2, he2b, hbit⟩

theorem evAt_valid (ev : ℕ → ℤ) (e : ℤ) (n : ℕ)
    (hev : ∀ k, 0 ≤ ev k → (ev k).toNat < n) (hn : 1 ≤ n) :
    (evAt ev e).toNat < n := by
  unfold evAt
  split
  · rcases le_or_lt 0 (ev e.toNat) with hpos | hneg
    · exact hev _ hpos
    · omega
  · omega

theorem emitTris_spec (tt : ℕ → ℤ) (ev : ℕ → ℤ) (tBase n : ℕ)
    (hev : ∀ k, 0 ≤ ev k → (ev k).toNat < n) (hn : 1 ≤ n) :
    ∀ ts : List ℕ, (emitTris tt ev tBase ts).length % 3 = 0
      ∧ ∀ i ∈ emitTris tt ev tBase ts, i < n := by
  intro ts
  induction ts with
  | nil => exact ⟨rfl, by simp [emitTris]⟩
  | cons t rest ih =>
    simp only [emitTris]
    split
    · exact ⟨rfl, by simp⟩
    · split
      · exact ih
      · refine ⟨?_, ?_⟩
        · simp only [List.length_cons]
          omega
        · intro i hi
          simp only [List.mem_cons] at hi
          rcases hi with rfl | rfl | rfl | hi
          · exact evAt_valid ev _ n hev hn
          · exact evAt_valid ev _ n hev hn
          · exact evAt_valid ev _ n hev hn
          · exact ih.2 i hi

theorem cubeIndexOf_lt (sf : ℕ → ℕ) (np np2 c0 : ℕ) :
    cubeIndexOf sf np np2 c0 < 256 := by
  unfold cubeIndexOf
  have main : ∀ (l : List ℕ), (∀ e ∈ l, e < 8) → ∀ m, m < 256 →
      (l.foldl (fun ci c =>
        if sf (c0 + cornerOff np np2 c) = 0 then ci ||| (1 <<< c) else ci) m) < 256 := by
    intro l
    induction l with
    | nil => exact fun _ m hm => hm
    | cons e tl ih =>
      intro hl m hm
      rw [List.foldl_cons]
      refine ih (fun x hx => hl x (by simp [hx])) _ ?_
      split
      · have h2 : (1 <<< e) < 2 ^ 8 := by
          rw [Nat.shiftLeft_eq, one_mul]
          exact Nat.pow_lt_pow_right (by norm_num) (hl e (by simp))
        have h3 : m < 2 ^ 8 := by omega
        have := Nat.or_lt_two_pow h3 h2
        omega
      · exact hm
  exact main (List.range 8) (fun e he => List.mem_range.mp he) 0 (by norm_num)

theorem EDGE_TABLE_lt (ci : ℕ) : EDGE_TABLE ci < 4096 := by
  unfold EDGE_TABLE
  have main : ∀ (l : List ℕ), (∀ e ∈ l, e < 12) → ∀ m, m < 4096 →
      (l.foldl (fun m e =>
        if ci.testBit (EDGE_V0.getD e 0) ≠ ci.testBit (EDGE_V1.getD e 0) then
          m ||| (1 <<< e)
        else m) m) < 4096 := by
    intro l
    induction l with
    | nil => exact fun _ m hm => hm
    | cons e tl ih =>
      intro hl m hm
      rw [List.foldl_cons]
      refine ih (fun x hx => hl x (by simp [hx])) _ ?_
      split
      · have h2 : (1 <<< e) < 2 ^ 12 := by
          rw [Nat.shiftLeft_eq, one_mul]
          exact Nat.pow_lt_pow_right (by norm_num) (hl e (by simp))
        have h3 : m < 2 ^ 12 := by omega
        have := Nat.or_lt_two_pow h3 h2
        omega
      · exact hm
  exact main (List.range 12) (fun e he => List.mem_range.mp he) 0 (by norm_num)

theorem edgeTable_has_bit (ci : ℕ) (h : EDGE_TABLE ci ≠ 0) :
    ∃ e ∈ List.range 12, EDGE_TABLE ci &&& (1 <<< e) ≠ 0 := by
  obtain ⟨i, hbit, -⟩ := Nat.exists_most_significant_bit h
  have hlt := EDGE_TABLE_lt ci
  have hi12 : i < 12 := by
    by_contra hge
    have hpow : EDGE_TABLE ci < 2 ^ i := by
      have h1 : (4096 : ℕ) ≤ 2 ^ i :=
        le_trans (by norm_num : (4096:ℕ) ≤ 2 ^ 12)
          (Nat.pow_le_pow_right (by norm_num) (by omega))
      omega
    rw [Nat.testBit_lt_two_pow hpow] at hbit
    cases hbit
  refine ⟨i, List.mem_range.mpr hi12, fun h0 => ?_⟩
  have hz : (EDGE_TABLE ci &&& 1 <<< i).testBit i = false := by
    rw [h0]
    exact Nat.zero_testBit i
  rw [Nat.testBit_and] at hz
  have h1i : (1 <<< i) = 2 ^ i := by rw [Nat.shiftLeft_eq, one_mul]
  rw [h1i, hbit, Nat.testBit_two_pow_self] at hz
  cases hz

theorem appendFaces_inv (s2 : MCState) (tris : List ℕ) (h : MCInv s2)
    (hlen : tris.length % 3 = 0)
    (hmem : ∀ i ∈ tris, i < s2.positions.length / 3) :
    MCInv ⟨s2.cache, s2.positions, s2.faces ++ tris⟩ := by
  obtain ⟨hc, hf1, hf2⟩ := h
  refine ⟨hc, ?_, ?_⟩
  · show (s2.faces ++ tris).length % 3 = 0
    rw [List.length_append]
    omega
  · intro i hi
    rcases List.mem_append.mp hi with hm | hm
    · exact hf2 i hm
    · exact hmem i hm

theorem processCube_spec (sf : ℕ → ℕ) (tt : ℕ → ℤ) (np np2 : ℕ)
    (half step : ℚ) (c0 : ℕ) (s : MCState) (h : MCInv s) :
    MCInv (processCube sf tt np np2 half step c0 s) := by
  unfold processCube
  dsimp only
  split
  case isTrue h0 => exact h
  case isFalse h0 =>
    obtain ⟨rinv, rev, rmono, rfaces, rone⟩ :=
      edgeFold_spec sf np np2 half step (EDGE_TABLE (cubeIndexOf sf np np2 c0)) c0
        (List.range 12) (s, fun _ => (-1 : ℤ)) h
        (fun j hj => absurd hj (by norm_num))
    have hone := rone (edgeTable_has_bit _ h0)
    have hemit := emitTris_spec tt
      ((List.range 12).foldl
        (edgeStep sf np np2 half step (EDGE_TABLE (cubeIndexOf sf np np2 c0)) c0)
        (s, fun _ => (-1 : ℤ))).2
      (cubeIndexOf sf np np2 c0 <<< 4) _ rev hone triSteps
    exact appendFaces_inv _ _ rinv hemit.1 hemit.2

theorem marchCubes_spec (sf : ℕ → ℕ) (tt : ℕ → ℤ) (res np np2 : ℕ)
    (half step : ℚ) : MCInv (marchCubes sf tt res np np2 half step) := by
  unfold marchCubes
  have main : ∀ (l : List (ℕ × ℕ × ℕ)) (s : MCState), MCInv s →
      MCInv (l.foldl (fun s zyx => processCube sf tt np np2 half step
        (zyx.2.2 + zyx.2.1 * np + zyx.1 * np2) s) s) := by
    intro l
    induction l with
    | nil => exact fun s h => h
    | cons a tl ih =>
      intro s h
      rw [List.foldl_cons]
      exact ih _ (processCube_spec _ _ _ _ _ _ _ _ h)
  refine main _ _ ⟨?_, rfl, ?_⟩
  · intro d g hdg
    exact absurd hdg (by norm_num)
  · intro i hi
    cases hi

theorem remapVertexStep_spec (indices : List ℕ) (f : ℕ)
    (acc2 : (ℕ → ℤ) × ℕ × List ℕ) (k : ℕ)
    (h1 : ∀ v, acc2.1 v = -1 ∨ (0 ≤ acc2.1 v ∧ (acc2.1 v).toNat < acc2.2.1))
    (h2 : ∀ i ∈ acc2.2.2, i < acc2.2.1) :
    (∀ v, (remapVertexStep indices f acc2 k).1 v = -1
      ∨ (0 ≤ (remapVertexStep indices f acc2 k).1 v
         ∧ ((remapVertexStep indices f acc2 k).1 v).toNat
             < (remapVertexStep indices f acc2 k).2.1))
    ∧ (∀ i ∈ (remapVertexStep indices f acc2 k).2.2,
        i < (remapVertexStep indices f acc2 k).2.1)
    ∧ (remapVertexStep indices f acc2 k).2.2.length = acc2.2.2.length + 1
    ∧ acc2.2.1 ≤ (remapVertexStep indices f acc2 k).2.1 := by
  unfold remapVertexStep
  dsimp only
  split
  case isTrue hv =>
    dsimp only
    refine ⟨?_, ?_, by simp, by omega⟩
    · intro w
      rcases setI_cases acc2.1 (indices.getD (f * 3 + k) 0) (acc2.2.1 : ℤ) w
        with hc | hc <;> rw [hc]
      · refine Or.inr ⟨by positivity, ?_⟩
        simp only [Int.toNat_natCast]
        omega
      · rcases h1 w with h | ⟨ha, hb⟩
        · exact Or.inl h
        · exact Or.inr ⟨ha, by omega⟩
    · intro i hi
      rcases List.mem_append.mp hi with hm | hm
      · exact lt_of_lt_of_le (h2 i hm) (by omega)
      · simp only [List.mem_singleton] at hm
        omega
  case isFalse hv =>
    dsimp only
    refine ⟨h1, ?_, by simp, le_refl _⟩
    intro i hi
    rcases List.mem_append.mp hi with hm | hm
    · exact h2 i hm
    · simp only [List.mem_singleton] at hm
      subst hm
      rcases h1 (indices.getD (f * 3 + k) 0) with h | ⟨ha, hb⟩
      · exact absurd h hv
      · exact hb

theorem remapFaceStep_spec (indices : List ℕ) (acc : (ℕ → ℤ) × ℕ × List ℕ)
    (f : ℕ)
    (h1 : ∀ v, acc.1 v = -1 ∨ (0 ≤ acc.1 v ∧ (acc.1 v).toNat < acc.2.1))
    (h2 : ∀ i ∈ acc.2.2, i < acc.2.1) :
    (∀ v, (remapFaceStep indices acc f).1 v = -1
      ∨ (0 ≤ (remapFaceStep indices acc f).1 v
         ∧ ((remapFaceStep indices acc f).1 v).toNat < (remapFaceStep indices acc f).2.1))
    ∧ (∀ i ∈ (remapFaceStep indices acc f).2.2, i < (remapFaceStep indices acc f).2.1)
    ∧ (remapFaceStep indices acc f).2.2.length = acc.2.2.length + 3 := by
  unfold remapFaceStep
  simp only [List.foldl_cons, List.foldl_nil]
  obtain ⟨a1, a2, a3, a4⟩ := remapVertexStep_spec indices f acc 0 h1 h2
  obtain ⟨b1, b2, b3, b4⟩ := remapVertexStep_spec indices f _ 1 a1 a2
  obtain ⟨c1, c2, c3, c4⟩ := remapVertexStep_spec indices f _ 2 b1 b2
  exact ⟨c1, c2, by omega⟩

theorem remapFold_spec (indices : List ℕ) :
    ∀ (l : List ℕ) (acc : (ℕ → ℤ) × ℕ × List ℕ),
      (∀ v, acc.1 v = -1 ∨ (0 ≤ acc.1 v ∧ (acc.1 v).toNat < acc.2.1)) →
      (∀ i ∈ acc.2.2, i < acc.2.1) →
      (∀ i ∈ (l.foldl (remapFaceStep indices) acc).2.2,
        i < (l.foldl (remapFaceStep indices) acc).2.1)
      ∧ (l.foldl (remapFaceStep indices) acc).2.2.length % 3
          = acc.2.2.length % 3 := by
  intro l
  induction l with
  | nil => exact fun acc h1 h2 => ⟨h2, rfl⟩
  | cons fc tl ih =>
    intro acc h1 h2
    rw [List.foldl_cons]
    obtain ⟨a1, a2, a3⟩ := remapFaceStep_spec indices acc fc h1 h2
    obtain ⟨r1, r2⟩ := ih _ a1 a2
    exact ⟨r1, by omega⟩

theorem extractLargestComponent_spec (positions : List ℚ) (indices : List ℕ)
    (hok : IndexOK positions indices) :
    IndexOK (extractLargestComponent positions indices).1
      (extractLargestComponent positions indices).2 := by
  unfold extractLargestComponent
  dsimp only
  split
  · exact hok
  · split
    · exact hok
    · obtain ⟨r1, r2⟩ := remapFold_spec indices
        (bestComponent (vertFaces indices (indices.length / 3)) indices
          (indices.length / 3))
        ((fun _ => (-1 : ℤ)), 0, [])
        (fun v => Or.inl rfl) (fun i hi => absurd hi (List.not_mem_nil i))
      refine ⟨by simpa using r2, ?_⟩
      intro i hi
      simp only [List.length_map, List.length_range]
      have := r1 i hi
      omega

theorem preMesh_wellformed (sinA cosA : ℚ → ℚ → ℚ) (tt : ℕ → ℤ)
    (size cellSize wallThickness shellThickness frameBeamWidth resolution : ℚ)
    (useFrame makeManifold : Bool) :
    IndexOK (preMesh sinA cosA tt size cellSize wallThickness shellThickness
        frameBeamWidth resolution useFrame makeManifold).1
      (preMesh sinA cosA tt size cellSize wallThickness shellThickness
        frameBeamWidth resolution useFrame makeManifold).2 := by
  unfold preMesh
  dsimp only
  split
  · exact (marchCubes_spec _ _ _ _ _ _ _).2
  · exact extractLargestComponent_spec _ _ (marchCubes_spec _ _ _ _ _ _ _).2

theorem generateMesh_wellformed (sinA cosA : ℚ → ℚ → ℚ) (msqrt : ℚ → ℚ)
    (tt : ℕ → ℤ) (q : ResolvedParams) :
    (generateMesh sinA cosA msqrt tt q).indices.length % 3 = 0
    ∧ ∀ i ∈ (generateMesh sinA cosA msqrt tt q).indices,
        i < (generateMesh sinA cosA msqrt tt q).vertices.length / 3 := by
  unfold generateMesh
  dsimp only
  obtain ⟨h1, h2⟩ := preMesh_wellformed sinA cosA tt q.size q.cellSize
    q.wallThickness q.shellThickness q.frameBeamWidth q.resolution
    q.useFrame q.makeManifold
  refine ⟨h1, ?_⟩
  intro i hi
  split
  · rw [taubinSmooth_length]
    exact h2 i hi
  · exact h2 i hi

/-- C1: every mesh returned by `generate` is well-formed — the index buffer
holds whole triples (`indices.length % 3 = 0`) and every index lies in
`[0, positions.length / 3)`.  The invariant is established by the
marching-cubes sweep (`marchCubes_spec`), preserved by component extraction
(`extractLargestComponent_spec`), and preserved by Taubin smoothing, which
keeps the position-buffer length and never touches the indices
(`generateMesh_wellformed`). -/
theorem c1_mesh_wellformed (sinA cosA : ℚ → ℚ → ℚ) (msqrt : ℚ → ℚ)
    (tt : ℕ → ℤ) (p : GenParams) (m : MeshData)
    (hok : generateGyroidMesh sinA cosA msqrt tt p = .ok m) :
    m.indices.length % 3 = 0 ∧ ∀ i ∈ m.indices, i < m.vertices.length / 3 := by
  unfold generateGyroidMesh at hok
  dsimp only at hok
  split at hok
  · cases hok
  · split at hok
    · cases hok
    · split at hok
      · cases hok
      · obtain rfl : generateMesh sinA cosA msqrt tt (resolveParams p) = m := by
          injection hok
        exact generateMesh_wellformed sinA cosA msqrt tt (resolveParams p)

theorem c1_mesh_wellformed_witness :
    generateGyroidMesh (fun _ _ => 0) (fun _ _ => 0) (fun q => q) (fun _ => -1)
      { appDefaultParams with resolution := 1 } = .ok ⟨[], [], []⟩
    ∧ (([] : List ℕ).length % 3 = 0
       ∧ ∀ i ∈ ([] : List ℕ), i < ([] : List ℚ).length / 3) := by
  have hgen : generateGyroidMesh (fun _ _ => 0) (fun _ _ => 0) (fun q => q)
      (fun _ => -1) { appDefaultParams with resolution := 1 } = .ok ⟨[], [], []⟩ := by
    with_unfolding_all rfl
  exact ⟨hgen, c1_mesh_wellformed _ _ _ _ _ _ hgen⟩

/-- C8 (amended): smoothing is a frame effect on positions only — running
`generate` with smoothingIterations = 16 versus 0 yields identical index
buffers (hence identical triangle counts) and identical vertex counts, since
Taubin smoothing rewrites positions in place, preserves the buffer length and
never touches `indices`; a vertex with no one-ring neighbours keeps its exact
position through every pass.  (Positions *may* change for neighboured
vertices but need not differ — the counterexample's empty mesh is unchanged.) -/
theorem c8_smoothing_frame_effect (sinA cosA : ℚ → ℚ → ℚ) (msqrt : ℚ → ℚ)
    (tt : ℕ → ℤ) (p : GenParams) :
    ((generateGyroidMesh sinA cosA msqrt tt
        { p with smoothingIterations := some 16 }).map MeshData.indices
      = (generateGyroidMesh sinA cosA msqrt tt
        { p with smoothingIterations := some 0 }).map MeshData.indices)
    ∧ ((generateGyroidMesh sinA cosA msqrt tt
        { p with smoothingIterations := some 16 }).map (fun m => m.vertices.length)
      = (generateGyroidMesh sinA cosA msqrt tt
        { p with smoothingIterations := some 0 }).map (fun m => m.vertices.length))
    ∧ ((generateGyroidMesh sinA cosA msqrt tt
        { p with smoothingIterations := some 16 }).map (fun m => m.indices.length / 3)
      = (generateGyroidMesh sinA cosA msqrt tt
        { p with smoothingIterations := some 0 }).map (fun m => m.indices.length / 3))
    ∧ (∀ (positions : List ℚ) (indices : List ℕ) (it : ℚ) (v : ℕ),
        v < positions.length / 3 → neighbors indices v = [] →
        ((taubinSmooth positions indices it).getD (v * 3) 0,
         (taubinSmooth positions indices it).getD (v * 3 + 1) 0,
         (taubinSmooth positions indices it).getD (v * 3 + 2) 0)
        = (positions.getD (v * 3) 0, positions.getD (v * 3 + 1) 0,
           positions.getD (v * 3 + 2) 0)) := by
  refine ⟨?_, ?_, ?_, fun positions indices it v hv hn =>
    taubinSmooth_no_neighbors positions indices it v hv hn⟩ <;>
  · simp only [generateGyroidMesh, resolveParams, Option.getD_some]
    split_ifs <;> norm_num [generateMesh, Except.map, taubinSmooth_length]

/-- C8 counterexample: there are valid parameters (resolution = 1, where
boundary voiding empties the grid) for which the smoothing-16 and smoothing-0
runs return *exactly* the same mesh, positions included — so per-vertex
positions do not differ for every choice of parameters. -/
theorem c8_positions_differ_counterexample :
    generateGyroidMesh (fun _ _ => 0) (fun _ _ => 0) (fun q => q) (fun _ => -1)
      { appDefaultParams with resolution := 1, smoothingIterations := some 16 }
      = .ok ⟨[], [], []⟩
    ∧ generateGyroidMesh (fun _ _ => 0) (fun _ _ => 0) (fun q => q) (fun _ => -1)
      { appDefaultParams with resolution := 1, smoothingIterations := some 0 }
      = .ok ⟨[], [], []⟩ :=
  ⟨by with_unfolding_all rfl, by with_unfolding_all rfl⟩

theorem c8_smoothing_frame_effect_witness :
    ((generateGyroidMesh (fun _ _ => 0) (fun _ _ => 0) (fun q => q) (fun _ => -1)
        { appDefaultParams with smoothingIterations := some 16 }).map MeshData.indices
      = (generateGyroidMesh (fun _ _ => 0) (fun _ _ => 0) (fun q => q) (fun _ => -1)
        { appDefaultParams with smoothingIterations := some 0 }).map MeshData.indices)
    ∧ ((taubinSmooth [1, 2, 3] [] 5).getD 0 0, (taubinSmooth [1, 2, 3] [] 5).getD 1 0,
        (taubinSmooth [1, 2, 3] [] 5).getD 2 0) = ((1 : ℚ), 2, 3) := by
  constructor
  · exact (c8_smoothing_frame_effect (fun _ _ => 0) (fun _ _ => 0) (fun q => q)
      (fun _ => -1) appDefaultParams).1
  · have h := (c8_smoothing_frame_effect (fun _ _ => 0) (fun _ _ => 0) (fun q => q)
      (fun _ => -1) appDefaultParams).2.2.2 [1, 2, 3] [] 5 0 (by norm_num) rfl
    simpa using h

/-- C7 (amended): Taubin smoothing preserves coplanarity — every vertex of a
mesh whose vertices all lie on a plane `a x + b y + c z = d` stays exactly on
that plane through any number of smoothing passes; positions may move within
the plane (and do, see the counterexample), so the mesh is *not* pointwise
unchanged. -/
theorem c7_taubin_coplanar_amended (positions : List ℚ) (indices : List ℕ)
    (it a b c d : ℚ)
    (hidx : ∀ i ∈ indices, i < positions.length / 3)
    (hpl : ∀ v < positions.length / 3,
      a * positions.getD (v * 3) 0 + b * positions.getD (v * 3 + 1) 0
      + c * positions.getD (v * 3 + 2) 0 = d) :
    ∀ v < positions.length / 3,
      a * (taubinSmooth positions indices it).getD (v * 3) 0
      + b * (taubinSmooth positions indices it).getD (v * 3 + 1) 0
      + c * (taubinSmooth positions indices it).getD (v * 3 + 2) 0 = d :=
  taubinSmooth_plane positions indices it a b c d hidx hpl

theorem c7_taubin_coplanar_amended_witness :
    (taubinSmooth [0, 0, 0, 1, 0, 0, 0, 1, 0] [0, 1, 2] 1).getD 2 0 = 0 := by
  have h := c7_taubin_coplanar_amended [0, 0, 0, 1, 0, 0, 0, 1, 0] [0, 1, 2] 1
    0 0 1 0
    (by intro i hi; fin_cases hi <;> norm_num)
    (by intro v hv; norm_num at hv; interval_cases v <;> simp)
    0 (by norm_num)
  simpa using h

/-- C7 counterexample: a single flat triangle in the plane z = 0 (all
vertices coplanar) is *not* left unchanged by one smoothing pass — vertex 0
moves from (0,0,0) to (147/800, 147/800, 0), a displacement far above any
floating-point tolerance (its x-coordinate alone changes by more than 1/8). -/
theorem c7_taubin_counterexample :
    (∀ v < 3, ([0, 0, 0, 1, 0, 0, 0, 1, 0] : List ℚ).getD (v * 3 + 2) 0 = 0)
    ∧ taubinSmooth [0, 0, 0, 1, 0, 0, 0, 1, 0] [0, 1, 2] 1
        = [147/800, 147/800, 0, 253/400, 147/800, 0, 147/800, 253/400, 0]
    ∧ ¬ |(147/800 : ℚ) - 0| ≤ 1/8 := by
  refine ⟨?_, by with_unfolding_all rfl, by rw [abs_sub_comm]; norm_num [abs_le]⟩
  intro v hv
  interval_cases v <;> rfl

theorem c2_stl_layout_witness :
    (exportToSTL (fun q => q) ⟨[0, 0, 0, 1, 0, 0, 0, 1, 0], [], [0, 1, 2]⟩).map
      List.length = some 134 := by
  obtain ⟨bs, h1, h2, -⟩ :=
    c2_stl_layout (fun q => q) ⟨[0, 0, 0, 1, 0, 0, 0, 1, 0], [], [0, 1, 2]⟩ (by simp)
  rw [h1]
  show some bs.length = some 134
  norm_num at h2
  rw [h2]

end GyroidGen
